import Mathlib

/-
Verification of the orbital-propagation core of the satcomsim repository.

The definitions below are a shallow embedding, over exact real arithmetic,
of the Python sources:
  src/src/Orbit.py        (Orbit: Kepler solver, propagation, perturbations)
  src/src/Constants.py    (Constants.twopi, J2_earth, r_earth)
  src/src/Propulsion.py   (maneuver queue, over the rationals)
  src/src/PointCart.py    (Cartesian point, azimuth branches)
  src/src/models/satellite.py (Satellite construction)
Stateful methods become functions returning an updated record; the one
method that dereferences attributes its class does not define
(the drag branch of Orbit.update) returns an Option, none standing for the
AttributeError the Python interpreter raises there.
-/

namespace SatComSim

open Real

/-- Constants.twopi from src/src/Constants.py (`2.0 * math.pi`). -/
noncomputable def twopi : ℝ := 2 * Real.pi

/-- Constants.J2_earth from src/src/Constants.py. -/
noncomputable def J2_earth : ℝ := 0.0010826359

/-- Constants.r_earth from src/src/Constants.py (km). -/
noncomputable def r_earth : ℝ := 6.3781366e3

/-- The normalization idiom used throughout Orbit.py:
`x = math.fmod(x, Constanst.twopi); if x < 0.0: x += Constants.twopi`.
In exact real arithmetic this is the representative of `x` modulo `2*pi`
lying in `[0, 2*pi)`. -/
noncomputable def fmod2pi (x : ℝ) : ℝ := x - twopi * ⌊x / twopi⌋

theorem twopi_pos : 0 < twopi := Real.two_pi_pos

theorem fmod2pi_eq_fract (x : ℝ) : fmod2pi x = twopi * Int.fract (x / twopi) := by
  have h := twopi_pos.ne'
  unfold fmod2pi Int.fract
  field_simp

theorem fmod2pi_nonneg (x : ℝ) : 0 ≤ fmod2pi x := by
  rw [fmod2pi_eq_fract]
  exact mul_nonneg twopi_pos.le (Int.fract_nonneg _)

theorem fmod2pi_lt (x : ℝ) : fmod2pi x < twopi := by
  rw [fmod2pi_eq_fract]
  calc twopi * Int.fract (x / twopi) < twopi * 1 :=
        by exact (mul_lt_mul_left twopi_pos).2 (Int.fract_lt_one _)
    _ = twopi := mul_one _

theorem fmod2pi_eq_self {x : ℝ} (h0 : 0 ≤ x) (h1 : x < twopi) : fmod2pi x = x := by
  have hfl : ⌊x / twopi⌋ = 0 := by
    rw [Int.floor_eq_zero_iff]
    constructor
    · exact div_nonneg h0 twopi_pos.le
    · exact (div_lt_one twopi_pos).2 h1
  simp [fmod2pi, hfl]

theorem fmod2pi_neg_eq_add {x : ℝ} (h0 : -twopi ≤ x) (h1 : x < 0) :
    fmod2pi x = x + twopi := by
  have hfl : ⌊x / twopi⌋ = -1 := by
    rw [Int.floor_eq_iff]
    constructor
    · push_cast
      rw [neg_le, ← neg_div]
      exact (div_le_one twopi_pos).2 (by linarith)
    · push_cast
      calc x / twopi < 0 := div_neg_of_neg_of_pos h1 twopi_pos
        _ ≤ -1 + 1 := by norm_num
  rw [fmod2pi, hfl]
  push_cast
  ring

/-- Adding a value to an already-normalized angle and normalizing again is
the same as normalizing the plain sum (normalization is mod 2*pi). -/
theorem fmod2pi_fmod2pi_add (x y : ℝ) : fmod2pi (fmod2pi x + y) = fmod2pi (x + y) := by
  have h2 : (twopi : ℝ) ≠ 0 := twopi_pos.ne'
  unfold fmod2pi
  have harg : (x - twopi * ⌊x / twopi⌋ + y) / twopi = (x + y) / twopi - (⌊x / twopi⌋ : ℝ) := by
    field_simp
    ring
  rw [harg, Int.floor_sub_int]
  push_cast
  ring

/-- Planet (src/src/models/planet.py): the fields the orbital core reads. -/
structure Planet where
  mu : ℝ
  radius : ℝ

/-- Orbit (src/src/Orbit.py): the Keplerian elements, the anomaly state and
the auxiliary two-component integrator state `_state`.  `mu` caches
`planet.get_mu()` exactly as `self.m_mu` does. -/
structure Orbit where
  planet : Planet
  mu : ℝ
  a : ℝ
  e : ℝ
  i : ℝ
  Omega : ℝ
  omega : ℝ
  tp : ℝ
  v : ℝ
  E : ℝ
  M : ℝ
  state : ℝ × ℝ

/-- One comparison of the dichotomy loop shared by Orbit._basic_integration,
Orbit.set_m and Orbit.get_point_at: halve the bracket `[lo, hi]` keeping the
side selected by `M < mid - e*sin(mid)`. -/
noncomputable def kepStep (e M lo hi : ℝ) : ℝ × ℝ :=
  if M < 0.5 * (hi + lo) - e * Real.sin (0.5 * (hi + lo)) then (lo, 0.5 * (hi + lo))
  else (0.5 * (hi + lo), hi)

/-- The bracket `(min_val, max_val)` after `k` iterations of the dichotomy
loop, started from `(0.0, Constants.twopi)`. -/
noncomputable def kepIter (e M : ℝ) : ℕ → ℝ × ℝ
  | 0 => (0, twopi)
  | k + 1 => kepStep e M (kepIter e M k).1 (kepIter e M k).2

/-- The eccentric anomaly the dichotomy loop returns: its `min_val` when the
bracket width first satisfies `(max_val - min_val) <= eps` with
`eps = 1.0e-6`.  The width after `k` iterations is exactly `twopi / 2^k`
(theorem `kepIter_width`), so the while loop runs exactly 23 iterations
(theorem `kepIter_guard_exact`), independently of `e` and `M`. -/
noncomputable def solveE (e M : ℝ) : ℝ := (kepIter e M 23).1

/-- The true-anomaly recovery of Orbit.py: `acos((cos E - e)/(1 - e*cos E))`,
reflected into `(pi, 2*pi)` when `E > pi`. -/
noncomputable def vFromE (e E : ℝ) : ℝ :=
  if E ≤ Real.pi then Real.arccos ((Real.cos E - e) / (1 - e * Real.cos E))
  else twopi - Real.arccos ((Real.cos E - e) / (1 - e * Real.cos E))

/-- Bracket width after k dichotomy iterations: exactly `twopi / 2 ^ k`. -/
theorem kepIter_width (e M : ℝ) (k : ℕ) :
    (kepIter e M k).2 - (kepIter e M k).1 = twopi / 2 ^ k := by
  induction k with
  | zero => simp [kepIter]
  | succ k ih =>
      show (kepStep e M (kepIter e M k).1 (kepIter e M k).2).2 -
          (kepStep e M (kepIter e M k).1 (kepIter e M k).2).1 = twopi / 2 ^ (k + 1)
      unfold kepStep
      split_ifs with h
      · dsimp only
        rw [pow_succ]
        field_simp at ih ⊢
        linarith
      · dsimp only
        rw [pow_succ]
        field_simp at ih ⊢
        linarith

/-- The dichotomy loop guard `(max_val - min_val) > 1.0e-6` holds for the
first 22 iterations and fails at iteration 23: the loop runs exactly 23
times for every input. -/
theorem kepIter_guard_exact (e M : ℝ) :
    (∀ k < 23, 1e-6 < (kepIter e M k).2 - (kepIter e M k).1) ∧
      (kepIter e M 23).2 - (kepIter e M 23).1 ≤ 1e-6 := by
  have hpi_lo := Real.pi_gt_d6
  have hpi_hi := Real.pi_lt_d6
  constructor
  · intro k hk
    rw [kepIter_width]
    have hk' : (2 : ℝ) ^ k ≤ 2 ^ 22 := by
      apply pow_le_pow_right₀ (by norm_num)
      omega
    have h22 : (1e-6 : ℝ) < twopi / 2 ^ 22 := by
      rw [lt_div_iff₀ (by positivity), twopi]
      norm_num
      linarith
    calc (1e-6 : ℝ) < twopi / 2 ^ 22 := h22
      _ ≤ twopi / 2 ^ k := by
          apply div_le_div_of_nonneg_left twopi_pos.le (by positivity) hk'
  · rw [kepIter_width]
    rw [div_le_iff₀ (by positivity), twopi]
    norm_num
    linarith

/-- Invariant of the dichotomy loop for `M` in `[0, twopi)`:
`min_val - e*sin(min_val) <= M < max_val - e*sin(max_val)` at every
iteration (the bracket always straddles the Kepler-equation root). -/
theorem kepIter_invariant (e M : ℝ) (h0 : 0 ≤ M) (h1 : M < twopi) (k : ℕ) :
    (kepIter e M k).1 - e * Real.sin (kepIter e M k).1 ≤ M ∧
      M < (kepIter e M k).2 - e * Real.sin (kepIter e M k).2 := by
  induction k with
  | zero =>
      constructor
      · simpa [kepIter] using h0
      · simpa [kepIter, twopi, Real.sin_two_pi] using h1
  | succ k ih =>
      show (kepStep e M (kepIter e M k).1 (kepIter e M k).2).1 -
            e * Real.sin (kepStep e M (kepIter e M k).1 (kepIter e M k).2).1 ≤ M ∧
          M < (kepStep e M (kepIter e M k).1 (kepIter e M k).2).2 -
            e * Real.sin (kepStep e M (kepIter e M k).1 (kepIter e M k).2).2
      unfold kepStep
      split_ifs with h
      · exact ⟨ih.1, h⟩
      · exact ⟨not_lt.1 h, ih.2⟩

/-- PointPol (src/src/models/point_pol.py): polar point with radius,
azimuth and elevation, as returned by Orbit.get_position_point. -/
structure PointPol where
  r : ℝ
  theta : ℝ
  phi : ℝ

/-- The two-argument arctangent.  This is the mathematical definition of
Python's `math.atan2(y, x)` (value in `(-pi, pi]`), and also serves as the
spec-side reference function for the azimuth claim about
PointCart.get_theta ("a single two-argument arctangent"). -/
noncomputable def atan2 (y x : ℝ) : ℝ :=
  if 0 < x then Real.arctan (y / x)
  else if x < 0 then
    (if 0 ≤ y then Real.arctan (y / x) + Real.pi else Real.arctan (y / x) - Real.pi)
  else
    (if 0 < y then Real.pi / 2 else if y < 0 then -(Real.pi / 2) else 0)

/-- Orbit.get_n: mean motion `sqrt(mu / a^3)`. -/
noncomputable def get_n (o : Orbit) : ℝ := Real.sqrt (o.mu / o.a ^ 3)

/-- Orbit.get_m: the stored mean anomaly. -/
def get_m (o : Orbit) : ℝ := o.M

/-- Orbit.get_position_point (src/src/Orbit.py lines 276-318): radius
`a*(1 - e*cos E)`, azimuth from the argument of latitude `omega + v`
projected through the inclination and the node, elevation from
`asin(sin i * sin(omega + v))`, each fmod-normalized into `[0, 2*pi)`. -/
noncomputable def get_position_point (o : Orbit) : PointPol :=
  { r := o.a * (1 - o.e * Real.cos o.E)
    theta := fmod2pi (o.Omega +
      atan2
        (Real.sin (o.omega + o.v) * Real.cos o.i /
          Real.sqrt (1 - (Real.sin (o.omega + o.v) * Real.sin o.i) ^ 2))
        (Real.cos (o.omega + o.v) /
          Real.sqrt (1 - (Real.sin (o.omega + o.v) * Real.sin o.i) ^ 2)))
    phi := fmod2pi (Real.arcsin (Real.sin o.i * Real.sin (o.omega + o.v))) }

/-- Orbit._basic_integration: advance the mean anomaly by `n*dt`, normalize
into `[0, 2*pi)`, re-solve Kepler's equation by dichotomy and recover the
true anomaly. -/
noncomputable def basic_integration (o : Orbit) (dt : ℝ) : Orbit :=
  let newM := fmod2pi (o.M + get_n o * dt)
  { o with M := newM, E := solveE o.e newM, v := vFromE o.e (solveE o.e newM) }

/-- Orbit._get_derivatives / _calculate_position_derivative /
_calculate_velocity_derivative.  Note the source ignores the `state`
argument passed to `_get_derivatives`: both derivative helpers read
`self._state` and `self` directly, so the embedding takes `s` and drops it,
exactly like the Python. -/
noncomputable def get_derivatives (o : Orbit) (_s : ℝ × ℝ) : ℝ × ℝ :=
  (o.state.2, -o.mu / ((get_position_point o).r * (get_position_point o).r))

/-- Orbit._rk4_integration: the classic RK4 update applied to the auxiliary
`_state` pair only; no other attribute of the orbit is written. -/
noncomputable def rk4_integration (o : Orbit) (dt : ℝ) : Orbit :=
  let k1 := get_derivatives o o.state
  let k2 := get_derivatives o (o.state.1 + 0.5 * dt * k1.1, o.state.2 + 0.5 * dt * k1.2)
  let k3 := get_derivatives o (o.state.1 + 0.5 * dt * k2.1, o.state.2 + 0.5 * dt * k2.2)
  let k4 := get_derivatives o (o.state.1 + dt * k3.1, o.state.2 + dt * k3.2)
  { o with state := (o.state.1 + dt / 6 * (k1.1 + 2 * k2.1 + 2 * k3.1 + k4.1),
                     o.state.2 + dt / 6 * (k1.2 + 2 * k2.2 + 2 * k3.2 + k4.2)) }

/-- Orbit._rkf78_integration: the source computes `k1`, `k2`, then sets
`error = 0`, which is below `error_tolerance = 1e-6`, so the adaptive loop
breaks on its first pass having written no attribute: the method is an
identity on the orbit state. -/
noncomputable def rkf78_integration (o : Orbit) (_dt : ℝ) : Orbit := o

/-- Orbit.update_position: dispatch on the `method` string, whose Python
default value is "RK4"; anything other than "RK4" and "RKF78" falls back to
the closed-form `_basic_integration`. -/
noncomputable def update_position (o : Orbit) (dt : ℝ) (method : String := "RK4") : Orbit :=
  if method = "RK4" then rk4_integration o dt
  else if method = "RKF78" then rkf78_integration o dt
  else basic_integration o dt

/-- Orbit.set_m: store the normalized mean anomaly and re-derive the
eccentric and true anomalies with the same dichotomy loop. -/
noncomputable def set_m (o : Orbit) (m : ℝ) : Orbit :=
  let newM := fmod2pi m
  { o with M := newM, E := solveE o.e newM, v := vFromE o.e (solveE o.e newM) }

/-- Orbit.reset: `set_m(-n * tp)`. -/
noncomputable def reset (o : Orbit) : Orbit := set_m o (-get_n o * o.tp)

/-- Orbit.__init__ (src/src/Orbit.py lines 12-56): cache `planet.get_mu()`,
normalize the three angles into `[0, 2*pi)`, zero the anomaly state and the
integrator state, then `reset()`. -/
noncomputable def mkOrbit (planet : Planet) (a e i Om om tp : ℝ) : Orbit :=
  reset
    { planet := planet, mu := planet.mu, a := a, e := e,
      i := fmod2pi i, Omega := fmod2pi Om, omega := fmod2pi om,
      tp := tp, v := 0, E := 0, M := 0, state := (0, 0) }

/-- Orbit.update (src/src/Orbit.py lines 178-206): J2 secular drift of
`Omega` and `omega` (forward Euler), then, when the current radius is below
1000, the drag branch.  That branch evaluates
`self.get_velocity()` and `self.set_velocity(...)`, attributes the Orbit
class never defines, so in Python it raises AttributeError; the embedding
returns `none` there.  Above the threshold the method completes having
written `Omega` and `omega` only. -/
noncomputable def update (o : Orbit) (dt : ℝ) : Option Orbit :=
  let r := (get_position_point o).r
  let j2term := 1.5 * J2_earth * (r_earth / r) ^ 2
  let o' := { o with
    Omega := o.Omega + j2term * Real.cos o.i * dt
    omega := o.omega + j2term * (2.5 * Real.sin o.i ^ 2 - 1) * dt }
  if r < 1000 then none else some o'

/-- Satellite.__init__ (src/src/models/satellite.py lines 12-36): the owned
orbit is rebuilt through the Orbit constructor from the prototype's element
getters (`get_a` .. `get_tp`); the constructor then calls `reset()`. -/
noncomputable def satellite_orbit (proto : Orbit) : Orbit :=
  mkOrbit proto.planet proto.a proto.e proto.i proto.Omega proto.omega proto.tp

/-- A maneuver tuple `(dv, direction, time)` of Propulsion.add_maneuver,
over the rationals. -/
structure Maneuver where
  dv : ℚ
  dir : ℚ × ℚ × ℚ
  time : ℚ
deriving DecidableEq

/-- Propulsion (src/src/Propulsion.py): engine parameters, accumulated
delta-v and the pending-maneuver list. -/
structure Propulsion where
  isp : ℚ
  thrust : ℚ
  mass : ℚ
  dv : ℚ
  maneuvers : List Maneuver
deriving DecidableEq

/-- Propulsion.add_maneuver: append the tuple and accumulate `m_dv`. -/
def add_maneuver (p : Propulsion) (dv : ℚ) (dir : ℚ × ℚ × ℚ) (time : ℚ) : Propulsion :=
  { p with maneuvers := p.maneuvers ++ [⟨dv, dir, time⟩], dv := p.dv + dv }

/-- The `for maneuver in self.m_maneuvers` loop of
Propulsion.execute_maneuvers, with Python's live-list iteration semantics:
the cursor `k` advances every pass while `list.remove` (first occurrence,
by equality) shortens the list, and the loop stops when the cursor passes
the current end.  `apply_dv` is `pass` in the source, so removal is the
whole observable effect. -/
def execLoop (dt : ℚ) (ms : List Maneuver) (k : ℕ) : List Maneuver :=
  if h : k < ms.length then
    if (ms.get ⟨k, h⟩).time ≤ dt then
      execLoop dt (ms.erase (ms.get ⟨k, h⟩)) (k + 1)
    else
      execLoop dt ms (k + 1)
  else ms
termination_by ms.length - k
decreasing_by
  · have hm : ms.get ⟨k, h⟩ ∈ ms := ms.get_mem _ _
    have := List.length_erase_of_mem hm
    omega
  · omega

/-- Propulsion.execute_maneuvers: remove (and "apply", a no-op) every
maneuver whose scheduled time the per-call comparison selects. -/
def execute_maneuvers (p : Propulsion) (dt : ℚ) : Propulsion :=
  { p with maneuvers := execLoop dt p.maneuvers 0 }

/-- PointCart.get_theta (src/src/PointCart.py lines 133-145): the azimuth
computed by one branch per sign combination of (x, y), as a function of the
stored coordinates. -/
noncomputable def get_theta (x y : ℝ) : ℝ :=
  if 0 < x ∧ 0 ≤ y then Real.arctan (y / x)
  else if x = 0 ∧ 0 < y then Real.pi / 2
  else if x < 0 then Real.pi + Real.arctan (y / x)
  else if x = 0 ∧ y < 0 then 3 * Real.pi / 2
  else if 0 < x ∧ y < 0 then twopi + Real.arctan (y / x)
  else 0

/-- The planet of the spec's concrete scenario:
`Planet(mu=398600.4415, radius=6378.137)`. -/
def planet0 : Planet := ⟨398600.4415, 6378.137⟩

/-- The orbit of the spec's concrete scenario:
`Orbit(a=7000, e=0.001, i=0.9006, Omega=0, omega=0, tp=0)` around planet0. -/
noncomputable def orbit0 : Orbit := mkOrbit planet0 7000 0.001 0.9006 0 0 0

theorem fmod2pi_zero : fmod2pi 0 = 0 := fmod2pi_eq_self le_rfl twopi_pos

theorem orbit0_M : orbit0.M = 0 := by
  show fmod2pi (-get_n _ * (0 : ℝ)) = 0
  rw [mul_zero, fmod2pi_zero]

/-- Mean motion of orbit0, with two-sided numeric bounds on the square root. -/
theorem orbit0_n_bounds : 1.0780e-3 ≤ get_n orbit0 ∧ get_n orbit0 ≤ 1.07801e-3 := by
  have hval : get_n orbit0 = Real.sqrt (398600.4415 / 7000 ^ 3) := rfl
  have hx : (0 : ℝ) ≤ 398600.4415 / 7000 ^ 3 := by norm_num
  have hs := Real.sq_sqrt hx
  have hnn := Real.sqrt_nonneg (398600.4415 / 7000 ^ 3)
  rw [hval]
  constructor
  · nlinarith [hs, hnn]
  · nlinarith [hs, hnn]

/-- C1: with the code's default integration strategy (`method="RK4"`), a
single `update_position(60)` on the concrete scenario orbit does NOT yield
a mean anomaly near 0.06468: the RK4 path never touches `m_M`, which stays
at its reset value 0. -/
theorem c1_default_scenario_counterexample :
    get_m (update_position orbit0 60) = 0 ∧ (1e-3 : ℝ) < |(0 : ℝ) - 0.06468| := by
  constructor
  · have hup : update_position orbit0 60 = rk4_integration orbit0 60 := by
      simp [update_position]
    rw [hup]
    show orbit0.M = 0
    exact orbit0_M
  · rw [zero_sub, abs_neg, abs_of_nonneg (by norm_num : (0.06468 : ℝ) ≥ 0)]
    norm_num

/-- C1 (amended): with the closed-form fallback strategy (any method string
other than "RK4" and "RKF78" dispatches to `_basic_integration`), a single
`update_position(60)` on the concrete scenario orbit yields mean anomaly
`n*60 mod 2*pi`, which is within 1e-5 of 0.06468. -/
theorem c1_basic_scenario :
    |get_m (update_position orbit0 60 "basic") - 0.06468| ≤ 1e-5 := by
  have hup : update_position orbit0 60 "basic" = basic_integration orbit0 60 := by
    simp [update_position]
  have hM : get_m (update_position orbit0 60 "basic") = fmod2pi (get_n orbit0 * 60) := by
    rw [hup]
    show fmod2pi (orbit0.M + get_n orbit0 * 60) = fmod2pi (get_n orbit0 * 60)
    rw [orbit0_M, zero_add]
  obtain ⟨hlo, hhi⟩ := orbit0_n_bounds
  have hself : fmod2pi (get_n orbit0 * 60) = get_n orbit0 * 60 := by
    apply fmod2pi_eq_self
    · positivity
    · have hpi := Real.pi_gt_three
      unfold twopi
      nlinarith
  rw [hM, hself, abs_le]
  constructor <;> nlinarith

/-- C4: on the unperturbed closed-form path, stepping by dt1 then dt2 gives
the same mean anomaly as one step by dt1+dt2 (exactly, in real arithmetic,
hence within 1e-9): M accumulates linearly modulo 2*pi. -/
theorem c4_step_decomposition (o : Orbit) (dt1 dt2 : ℝ)
    (h1 : 0 ≤ dt1) (h2 : 0 ≤ dt2) :
    |(basic_integration (basic_integration o dt1) dt2).M -
      (basic_integration o (dt1 + dt2)).M| ≤ 1e-9 := by
  have hM : (basic_integration (basic_integration o dt1) dt2).M
      = (basic_integration o (dt1 + dt2)).M := by
    show fmod2pi (fmod2pi (o.M + get_n o * dt1) + get_n (basic_integration o dt1) * dt2)
        = fmod2pi (o.M + get_n o * (dt1 + dt2))
    have hn : get_n (basic_integration o dt1) = get_n o := rfl
    rw [hn, fmod2pi_fmod2pi_add]
    congr 1
    ring
  rw [hM, sub_self, abs_zero]
  norm_num

theorem c4_step_decomposition_witness :
    (0 : ℝ) ≤ 1 ∧ (0 : ℝ) ≤ 2 ∧
      |(basic_integration (basic_integration orbit0 1) 2).M -
        (basic_integration orbit0 (1 + 2)).M| ≤ 1e-9 :=
  ⟨by norm_num, by norm_num, c4_step_decomposition orbit0 1 2 (by norm_num) (by norm_num)⟩

/-- C5: `update_position` with the default method argument ("RK4") writes
only the auxiliary `_state` pair: the anomaly state `m_M`, `m_E`, `m_v`,
every orbital element, and hence `get_m()` and `get_position_point()`, are
unchanged. -/
theorem c5_default_update_position_frame (o : Orbit) (dt : ℝ) :
    (update_position o dt).M = o.M ∧ (update_position o dt).E = o.E ∧
      (update_position o dt).v = o.v ∧ (update_position o dt).a = o.a ∧
      (update_position o dt).e = o.e ∧ (update_position o dt).i = o.i ∧
      (update_position o dt).Omega = o.Omega ∧
      (update_position o dt).omega = o.omega ∧
      (update_position o dt).tp = o.tp ∧ (update_position o dt).mu = o.mu ∧
      get_m (update_position o dt) = get_m o ∧
      get_position_point (update_position o dt) = get_position_point o :=
  ⟨rfl, rfl, rfl, rfl, rfl, rfl, rfl, rfl, rfl, rfl, rfl, rfl⟩

/-- A raw Orbit record used as a generic well-formed concrete state:
elements of the spec scenario, anomaly state and integrator state zero. -/
noncomputable def protoW : Orbit :=
  ⟨planet0, 398600.4415, 7000, 0.001, 0.9006, 0, 0, 0, 0, 0, 0, (0, 0)⟩

/-- C7: whenever the current radius `a*(1 - e*cos E)` is at least 1000 —
which the periapsis invariant `a*(1-e) > planet.radius` guarantees for an
Earth-sized planet — `update(dt)` completes without error (the embedding
returns `some`), writing only `m_Omega` and `m_omega`; the drag branch with
its calls to the undefined `get_velocity`/`set_velocity` is unreachable. -/
theorem c7_update_no_drag :
    (∀ o : Orbit, 0 < o.a → 0 ≤ o.e → 6378.137 ≤ o.planet.radius →
        o.planet.radius < o.a * (1 - o.e) → 1000 ≤ (get_position_point o).r) ∧
      ∀ (o : Orbit) (dt : ℝ), 1000 ≤ (get_position_point o).r →
        update o dt = some { o with
          Omega := o.Omega + 1.5 * J2_earth * (r_earth / (get_position_point o).r) ^ 2 *
            Real.cos o.i * dt,
          omega := o.omega + 1.5 * J2_earth * (r_earth / (get_position_point o).r) ^ 2 *
            (2.5 * Real.sin o.i ^ 2 - 1) * dt } := by
  constructor
  · intro o ha he hrad hperi
    show (1000 : ℝ) ≤ o.a * (1 - o.e * Real.cos o.E)
    have hc1 := Real.cos_le_one o.E
    have hc2 := Real.neg_one_le_cos o.E
    have hkey : 0 ≤ o.a * o.e * (1 - Real.cos o.E) :=
      mul_nonneg (mul_nonneg ha.le he) (by linarith)
    nlinarith
  · intro o dt h
    show (if (get_position_point o).r < 1000 then none else some _) = some _
    rw [if_neg (not_lt.2 h)]

theorem c7_update_no_drag_witness :
    ((0 : ℝ) < protoW.a ∧ (0 : ℝ) ≤ protoW.e ∧
        (6378.137 : ℝ) ≤ protoW.planet.radius ∧
        protoW.planet.radius < protoW.a * (1 - protoW.e) ∧
        1000 ≤ (get_position_point protoW).r) ∧
      update protoW 5 = some { protoW with
        Omega := protoW.Omega + 1.5 * J2_earth *
          (r_earth / (get_position_point protoW).r) ^ 2 * Real.cos protoW.i * 5,
        omega := protoW.omega + 1.5 * J2_earth *
          (r_earth / (get_position_point protoW).r) ^ 2 *
          (2.5 * Real.sin protoW.i ^ 2 - 1) * 5 } := by
  have ha : (0 : ℝ) < protoW.a := by norm_num [protoW]
  have he : (0 : ℝ) ≤ protoW.e := by norm_num [protoW]
  have hrad : (6378.137 : ℝ) ≤ protoW.planet.radius := by norm_num [protoW, planet0]
  have hperi : protoW.planet.radius < protoW.a * (1 - protoW.e) := by
    norm_num [protoW, planet0]
  have hr := c7_update_no_drag.1 protoW ha he hrad hperi
  exact ⟨⟨ha, he, hrad, hperi, hr⟩, c7_update_no_drag.2 protoW 5 hr⟩

/-- An orbit whose radius is below the drag threshold of Orbit.update:
`a = 900`, `e = 0`, so `r = a*(1 - e*cos E) = 900 < 1000`. -/
noncomputable def oLow : Orbit := mkOrbit planet0 900 0 0 0 0 0

/-- C6: evaluating `Orbit.update` at a state with radius below the 1000
threshold.  Instead of applying drag to an auxiliary scalar velocity, the
branch dereferences `self.get_velocity` / `self.set_velocity`, which the
Orbit class never defines, so the call raises (modelled as `none`): drag is
never applied in range. -/
theorem c6_drag_branch_raises : update oLow 10 = none := by
  have hr : (get_position_point oLow).r = 900 := by
    show (900 : ℝ) * (1 - 0 * Real.cos oLow.E) = 900
    ring
  show (if (get_position_point oLow).r < 1000 then none else some _) = none
  rw [hr, if_pos (by norm_num)]

/-- C9 (counterexample): the Orbit a Satellite is constructed with does not
copy the prototype's anomaly state: the constructor rebuilds the orbit from
the element getters and calls `reset()`.  For a prototype propagated by 60 s
from the concrete scenario (M = n*60 > 0), the satellite's orbit has M = 0. -/
theorem c9_satellite_copy_counterexample :
    get_m (satellite_orbit (basic_integration orbit0 60)) ≠
      get_m (basic_integration orbit0 60) := by
  have hL : get_m (satellite_orbit (basic_integration orbit0 60)) = 0 := by
    show fmod2pi (-get_n _ * (0 : ℝ)) = 0
    rw [mul_zero, fmod2pi_zero]
  have hR : get_m (basic_integration orbit0 60) = get_n orbit0 * 60 := by
    show fmod2pi (orbit0.M + get_n orbit0 * 60) = get_n orbit0 * 60
    rw [orbit0_M, zero_add]
    apply fmod2pi_eq_self
    · have := orbit0_n_bounds.1
      nlinarith
    · have := orbit0_n_bounds.2
      have hpi := Real.pi_gt_three
      unfold twopi
      nlinarith
  rw [hL, hR]
  intro hcon
  have hn := orbit0_n_bounds.1
  nlinarith [hcon.symm]

/-- C9 (amended): Satellite construction copies the orbital elements
`a, e, i, Omega, omega, tp` of the prototype by value (the angles are
re-normalized, hence unchanged for an already-normalized prototype), but
the anomaly state is not copied: it is re-derived from the copied epoch by
`reset()`, so `M = normalize(-n*tp)` regardless of the prototype's current
`M`, `E`, `v`. -/
theorem c9_satellite_copies_elements (proto : Orbit)
    (hi0 : 0 ≤ proto.i) (hi1 : proto.i < twopi)
    (hO0 : 0 ≤ proto.Omega) (hO1 : proto.Omega < twopi)
    (ho0 : 0 ≤ proto.omega) (ho1 : proto.omega < twopi) :
    (satellite_orbit proto).a = proto.a ∧ (satellite_orbit proto).e = proto.e ∧
      (satellite_orbit proto).i = proto.i ∧
      (satellite_orbit proto).Omega = proto.Omega ∧
      (satellite_orbit proto).omega = proto.omega ∧
      (satellite_orbit proto).tp = proto.tp ∧
      (satellite_orbit proto).M =
        fmod2pi (-Real.sqrt (proto.planet.mu / proto.a ^ 3) * proto.tp) := by
  refine ⟨rfl, rfl, ?_, ?_, ?_, rfl, rfl⟩
  · exact fmod2pi_eq_self hi0 hi1
  · exact fmod2pi_eq_self hO0 hO1
  · exact fmod2pi_eq_self ho0 ho1

theorem c9_satellite_copies_elements_witness :
    (0 ≤ protoW.i ∧ protoW.i < twopi ∧ 0 ≤ protoW.Omega ∧ protoW.Omega < twopi ∧
        0 ≤ protoW.omega ∧ protoW.omega < twopi) ∧
      ((satellite_orbit protoW).a = protoW.a ∧
        (satellite_orbit protoW).e = protoW.e ∧
        (satellite_orbit protoW).i = protoW.i ∧
        (satellite_orbit protoW).Omega = protoW.Omega ∧
        (satellite_orbit protoW).omega = protoW.omega ∧
        (satellite_orbit protoW).tp = protoW.tp ∧
        (satellite_orbit protoW).M =
          fmod2pi (-Real.sqrt (protoW.planet.mu / protoW.a ^ 3) * protoW.tp)) := by
  have hpi := Real.pi_gt_three
  have hi0 : (0 : ℝ) ≤ protoW.i := by norm_num [protoW]
  have hi1 : protoW.i < twopi := by
    show (0.9006 : ℝ) < twopi
    unfold twopi
    nlinarith
  have hO0 : (0 : ℝ) ≤ protoW.Omega := by norm_num [protoW]
  have hO1 : protoW.Omega < twopi := by
    show (0 : ℝ) < twopi
    exact twopi_pos
  have ho0 : (0 : ℝ) ≤ protoW.omega := by norm_num [protoW]
  have ho1 : protoW.omega < twopi := by
    show (0 : ℝ) < twopi
    exact twopi_pos
  exact ⟨⟨hi0, hi1, hO0, hO1, ho0, ho1⟩,
    c9_satellite_copies_elements protoW hi0 hi1 hO0 hO1 ho0 ho1⟩

/-- C3: for every valid input (e in [0,1), M in [0,2*pi)) the dichotomy
loop terminates: its guard `max_val - min_val > 1e-6` still holds for the
first 22 iterations and fails at iteration 23, so the loop runs exactly 23
iterations — and 23 is exactly the claimed bound ceil(log2(2*pi/1e-6)). -/
theorem c3_bisection_terminates_bounded (e M : ℝ) (he0 : 0 ≤ e) (he1 : e < 1)
    (hM0 : 0 ≤ M) (hM1 : M < twopi) :
    ((kepIter e M 23).2 - (kepIter e M 23).1 ≤ 1e-6 ∧
        ∀ k < 23, 1e-6 < (kepIter e M k).2 - (kepIter e M k).1) ∧
      ⌈Real.logb 2 (twopi / 1e-6)⌉ = 23 := by
  obtain ⟨hguard, hexit⟩ := kepIter_guard_exact e M
  refine ⟨⟨hexit, hguard⟩, ?_⟩
  have hpi_lo := Real.pi_gt_three
  have hpi_hi := Real.pi_lt_d2
  have hXpos : (0 : ℝ) < twopi / 1e-6 := div_pos twopi_pos (by norm_num)
  rw [Int.ceil_eq_iff]
  constructor
  · push_cast
    rw [show ((23 : ℝ) - 1) = (22 : ℝ) by norm_num]
    rw [Real.lt_logb_iff_rpow_lt (by norm_num) hXpos]
    rw [show ((22 : ℝ)) = ((22 : ℕ) : ℝ) by norm_num, Real.rpow_natCast]
    rw [lt_div_iff₀ (by norm_num), twopi]
    nlinarith
  · push_cast
    rw [Real.logb_le_iff_le_rpow (by norm_num) hXpos]
    rw [show ((23 : ℝ)) = ((23 : ℕ) : ℝ) by norm_num, Real.rpow_natCast]
    rw [div_le_iff₀ (by norm_num), twopi]
    nlinarith

theorem c3_bisection_terminates_bounded_witness :
    ((0 : ℝ) ≤ 0 ∧ (0 : ℝ) < 1 ∧ (0 : ℝ) ≤ 0 ∧ (0 : ℝ) < twopi) ∧
      (((kepIter 0 0 23).2 - (kepIter 0 0 23).1 ≤ 1e-6 ∧
          ∀ k < 23, 1e-6 < (kepIter 0 0 k).2 - (kepIter 0 0 k).1) ∧
        ⌈Real.logb 2 (twopi / 1e-6)⌉ = 23) :=
  ⟨⟨le_rfl, by norm_num, le_rfl, twopi_pos⟩,
    c3_bisection_terminates_bounded 0 0 le_rfl (by norm_num) le_rfl twopi_pos⟩

/-- A propulsion system with one pending maneuver of 1 m/s scheduled at
mission time 5 s, built through `add_maneuver` from the default engine
parameters `(isp=300, thrust=1000, mass=1000)`. -/
def prop0 : Propulsion := add_maneuver ⟨300, 1000, 1000, 0, []⟩ 1 (0, 0, 0) 5

/-- C8: evaluating `execute_maneuvers` on the failing input.  Two calls of
`execute_maneuvers(3)` let 6 s of cumulative mission time elapse, past the
maneuver scheduled at t = 5, yet the maneuver is still pending afterwards:
the source compares the schedule against the instantaneous `dt` argument
(`maneuver[2] <= dt`, i.e. 5 <= 3) of each single call, not against
cumulative mission time. -/
theorem c8_execute_maneuvers_uses_dt :
    (execute_maneuvers (execute_maneuvers prop0 3) 3).maneuvers =
        [⟨1, (0, 0, 0), 5⟩] ∧ (5 : ℚ) ≤ 3 + 3 := by
  constructor
  · have h1 : execLoop 3 [⟨1, (0, 0, 0), 5⟩] 0 = [⟨1, (0, 0, 0), 5⟩] := by
      rw [execLoop]
      norm_num
      rw [execLoop]
      norm_num
    show execLoop 3 (execLoop 3 [⟨1, (0, 0, 0), 5⟩] 0) 0 = [⟨1, (0, 0, 0), 5⟩]
    rw [h1, h1]
  · norm_num

/-- The sine function moves points by no more than their distance. -/
theorem abs_sin_sub_sin_le_abs (x y : ℝ) :
    |Real.sin x - Real.sin y| ≤ |x - y| := by
  rw [Real.sin_sub_sin, abs_mul, abs_mul]
  have h1 : |Real.sin ((x - y) / 2)| ≤ |(x - y) / 2| := Real.abs_sin_le_abs
  have h2 : |Real.cos ((x + y) / 2)| ≤ 1 := Real.abs_cos_le_one _
  calc |(2 : ℝ)| * |Real.sin ((x - y) / 2)| * |Real.cos ((x + y) / 2)|
      ≤ |(2 : ℝ)| * |(x - y) / 2| * 1 := by
        apply mul_le_mul _ h2 (abs_nonneg _) (by positivity)
        exact mul_le_mul_of_nonneg_left h1 (abs_nonneg _)
    _ = |x - y| := by
        rw [abs_div, mul_one]
        norm_num
        rw [mul_div_cancel₀]
        norm_num

/-- C2 (amended): for e in [0, 0.95] and M in [0, 2*pi), the eccentric
anomaly returned by the dichotomy solver recovers M within 1.5e-6 — the
exact worst case being `(1+e) * 2*pi / 2^23 < 1.47e-6`, slightly larger
than the claimed 1e-6. -/
theorem c2_kepler_roundtrip_amended (e M : ℝ) (he0 : 0 ≤ e) (he1 : e ≤ 0.95)
    (hM0 : 0 ≤ M) (hM1 : M < twopi) :
    |M - (solveE e M - e * Real.sin (solveE e M))| ≤ 1.5e-6 := by
  obtain ⟨hlo, hhi⟩ := kepIter_invariant e M hM0 hM1 23
  have hw : (kepIter e M 23).2 - (kepIter e M 23).1 = twopi / 2 ^ 23 :=
    kepIter_width e M 23
  set lo := (kepIter e M 23).1 with hlodef
  set hi := (kepIter e M 23).2 with hhidef
  have hE : solveE e M = lo := rfl
  rw [hE]
  have hwpos : (0 : ℝ) < twopi / 2 ^ 23 := div_pos twopi_pos (by positivity)
  have hdiff : hi - lo = twopi / 2 ^ 23 := hw
  have hsin : |Real.sin hi - Real.sin lo| ≤ |hi - lo| := abs_sin_sub_sin_le_abs hi lo
  rw [show |hi - lo| = hi - lo from abs_of_pos (by linarith)] at hsin
  obtain ⟨hs1, hs2⟩ := abs_le.1 hsin
  have h0 : 0 ≤ M - (lo - e * Real.sin lo) := by linarith
  rw [abs_of_nonneg h0]
  -- M - f(lo) < f(hi) - f(lo) <= (1+e)*(hi-lo) <= 1.95 * twopi/2^23 <= 1.5e-6
  have hub : M - (lo - e * Real.sin lo) <
      (hi - lo) + e * (hi - lo) := by
    have hmul : e * (-(hi - lo)) ≤ e * (Real.sin hi - Real.sin lo) :=
      mul_le_mul_of_nonneg_left hs1 he0
    nlinarith
  have hnum : (hi - lo) + e * (hi - lo) ≤ 1.5e-6 := by
    rw [hdiff]
    have hpi := Real.pi_lt_d2
    have h23 : twopi / 2 ^ 23 ≤ 7.6e-7 := by
      rw [div_le_iff₀ (by positivity), twopi]
      nlinarith
    nlinarith
  linarith

theorem c2_kepler_roundtrip_amended_witness :
    ((0 : ℝ) ≤ 0 ∧ (0 : ℝ) ≤ 0.95 ∧ (0 : ℝ) ≤ 0 ∧ (0 : ℝ) < twopi) ∧
      |(0 : ℝ) - (solveE 0 0 - 0 * Real.sin (solveE 0 0))| ≤ 1.5e-6 :=
  ⟨⟨le_rfl, by norm_num, le_rfl, twopi_pos⟩,
    c2_kepler_roundtrip_amended 0 0 le_rfl (by norm_num) le_rfl twopi_pos⟩

/-- Trace of the dichotomy loop on `e = 0.95`, `M = pi - 2e-7`: the first
comparison keeps the lower half `[0, pi]`, and every later comparison keeps
the upper half, so after k iterations the bracket is
`[pi - 2*pi/2^k, pi]`. -/
theorem kepIter_ce_trace : ∀ k : ℕ, 1 ≤ k → k ≤ 23 →
    kepIter 0.95 (Real.pi - 2e-7) k =
      (Real.pi - twopi / 2 ^ k, Real.pi) := by
  intro k
  induction k with
  | zero => omega
  | succ k ih =>
      intro _ hk23
      have hpi := Real.pi_gt_three
      by_cases hk0 : k = 0
      · subst hk0
        show kepStep 0.95 (Real.pi - 2e-7) (kepIter 0.95 (Real.pi - 2e-7) 0).1
            (kepIter 0.95 (Real.pi - 2e-7) 0).2 = _
        have h0 : kepIter 0.95 (Real.pi - 2e-7) 0 = (0, twopi) := rfl
        rw [h0]
        unfold kepStep
        have hmid : (0.5 : ℝ) * ((0, twopi).2 + (0, twopi).1) = Real.pi := by
          show (0.5 : ℝ) * (twopi + 0) = Real.pi
          unfold twopi
          ring
        rw [hmid, Real.sin_pi]
        rw [if_pos (by norm_num : Real.pi - 2e-7 < Real.pi - 0.95 * 0)]
        show ((0 : ℝ), Real.pi) = (Real.pi - twopi / 2 ^ 1, Real.pi)
        rw [Prod.mk.injEq]
        refine ⟨?_, rfl⟩
        unfold twopi
        ring
      · have hk1 : 1 ≤ k := Nat.one_le_iff_ne_zero.2 hk0
        have hIH := ih hk1 (by omega)
        show kepStep 0.95 (Real.pi - 2e-7) (kepIter 0.95 (Real.pi - 2e-7) k).1
            (kepIter 0.95 (Real.pi - 2e-7) k).2 = _
        rw [hIH]
        unfold kepStep
        have hmid : (0.5 : ℝ) * ((Real.pi - twopi / 2 ^ k, Real.pi).2 +
            (Real.pi - twopi / 2 ^ k, Real.pi).1) = Real.pi - Real.pi / 2 ^ k := by
          show (0.5 : ℝ) * (Real.pi + (Real.pi - twopi / 2 ^ k)) = Real.pi - Real.pi / 2 ^ k
          unfold twopi
          field_simp
          ring
        rw [hmid, Real.sin_pi_sub]
        have hknd : (0 : ℝ) < Real.pi / 2 ^ k := by positivity
        have hk22 : k ≤ 22 := by omega
        have hk2pow : (2 : ℝ) ^ k ≤ 2 ^ 22 := by
          apply pow_le_pow_right₀ (by norm_num)
          omega
        have hfrac : (2e-7 : ℝ) ≤ Real.pi / 2 ^ k := by
          calc (2e-7 : ℝ) ≤ Real.pi / 2 ^ 22 := by
                rw [le_div_iff₀ (by positivity)]
                nlinarith
            _ ≤ Real.pi / 2 ^ k :=
                div_le_div_of_nonneg_left Real.pi_pos.le (by positivity) hk2pow
        have hsin0 : 0 ≤ Real.sin (Real.pi / 2 ^ k) := by
          apply Real.sin_nonneg_of_nonneg_of_le_pi hknd.le
          apply div_le_self Real.pi_pos.le
          exact one_le_pow₀ (by norm_num)
        rw [if_neg (by push_neg; nlinarith)]
        rw [Prod.mk.injEq]
        refine ⟨?_, rfl⟩
        show Real.pi - Real.pi / 2 ^ k = Real.pi - twopi / 2 ^ (k + 1)
        unfold twopi
        rw [pow_succ]
        field_simp
        ring

/-- C2 (counterexample): at `e = 0.95`, `M = pi - 2e-7` — a valid input of
the claim's domain — the residual `|M - (E - e*sin E)|` of the dichotomy
solver exceeds 1e-6: near `E = pi` the Kepler function has slope `1 + e`,
so the final bracket of width `2*pi/2^23` leaves a residual of about
`1.95 * 7.49e-7 - 2e-7 > 1.26e-6`. -/
theorem c2_kepler_roundtrip_counterexample :
    ((0 : ℝ) ≤ 0.95 ∧ (0.95 : ℝ) ≤ 0.95 ∧ 0 ≤ Real.pi - 2e-7 ∧
        Real.pi - 2e-7 < twopi) ∧
      1e-6 < |(Real.pi - 2e-7) - (solveE 0.95 (Real.pi - 2e-7) -
        0.95 * Real.sin (solveE 0.95 (Real.pi - 2e-7)))| := by
  have hpi := Real.pi_gt_three
  have hpi2 := Real.pi_lt_d2
  have hE : solveE 0.95 (Real.pi - 2e-7) = Real.pi - twopi / 2 ^ 23 := by
    show (kepIter 0.95 (Real.pi - 2e-7) 23).1 = Real.pi - twopi / 2 ^ 23
    rw [kepIter_ce_trace 23 (by norm_num) le_rfl]
  refine ⟨⟨by norm_num, le_rfl, by nlinarith, ?_⟩, ?_⟩
  · unfold twopi
    nlinarith
  · rw [hE, Real.sin_pi_sub]
    set u : ℝ := twopi / 2 ^ 23 with hu
    have hu_lo : (7.49e-7 : ℝ) < u := by
      rw [hu, lt_div_iff₀ (by positivity), twopi]
      nlinarith [Real.pi_gt_d6]
    have hu_hi : u < 8e-7 := by
      rw [hu, div_lt_iff₀ (by positivity), twopi]
      nlinarith
    have hsin := Real.sin_gt_sub_cube (by linarith) (by linarith : u ≤ 1)
    have hcube : u ^ 3 ≤ (8e-7 : ℝ) ^ 3 := by
      apply pow_le_pow_left₀ (by linarith) (by linarith)
    have hval : (0 : ℝ) <
        (Real.pi - 2e-7) - ((Real.pi - u) - 0.95 * Real.sin u) := by
      nlinarith
    rw [abs_of_pos hval]
    nlinarith

theorem arctan_nonneg_of_nonneg {z : ℝ} (h : 0 ≤ z) : 0 ≤ Real.arctan z := by
  rw [← Real.arctan_zero]
  exact Real.arctan_strictMono.monotone h

theorem arctan_neg_of_neg {z : ℝ} (h : z < 0) : Real.arctan z < 0 := by
  rw [← Real.arctan_zero]
  exact Real.arctan_strictMono h

theorem arctan_nonpos_of_nonpos {z : ℝ} (h : z ≤ 0) : Real.arctan z ≤ 0 := by
  rw [← Real.arctan_zero]
  exact Real.arctan_strictMono.monotone h

/-- C10: for (x, y) different from the origin, the sign-combination
branches of PointCart.get_theta compute exactly the two-argument
arctangent atan2(y, x) normalized into [0, 2*pi), and the result always
lies in [0, 2*pi). -/
theorem c10_get_theta_eq_atan2 (x y : ℝ) (h : ¬(x = 0 ∧ y = 0)) :
    get_theta x y = fmod2pi (atan2 y x) ∧
      0 ≤ get_theta x y ∧ get_theta x y < twopi := by
  have hpi := Real.pi_pos
  have hmain : get_theta x y = fmod2pi (atan2 y x) := by
    rcases lt_trichotomy x 0 with hx | hx | hx
    · -- x < 0: branch `pi + atan(y/x)`
      have hg : get_theta x y = Real.pi + Real.arctan (y / x) := by
        unfold get_theta
        rw [if_neg (by rintro ⟨h1, _⟩; linarith), if_neg (by rintro ⟨h1, _⟩; linarith),
          if_pos hx]
      rcases le_or_lt 0 y with hy | hy
      · -- y >= 0: atan2 = atan(y/x) + pi in (pi/2, pi], already normalized
        have ha : atan2 y x = Real.arctan (y / x) + Real.pi := by
          unfold atan2
          rw [if_neg (by linarith), if_pos hx, if_pos hy]
        have hat : Real.arctan (y / x) ≤ 0 :=
          arctan_nonpos_of_nonpos (div_nonpos_of_nonneg_of_nonpos hy hx.le)
        have hat2 := Real.neg_pi_div_two_lt_arctan (y / x)
        rw [hg, ha, fmod2pi_eq_self (by linarith) (by unfold twopi; linarith)]
        ring
      · -- y < 0: atan2 = atan(y/x) - pi in (-pi, -pi/2), shifted by 2*pi
        have ha : atan2 y x = Real.arctan (y / x) - Real.pi := by
          unfold atan2
          rw [if_neg (by linarith), if_pos hx, if_neg (by linarith)]
        have hat : 0 < Real.arctan (y / x) := by
          rw [← Real.arctan_zero]
          exact Real.arctan_strictMono (div_pos_of_neg_of_neg hy hx)
        have hat2 := Real.arctan_lt_pi_div_two (y / x)
        rw [hg, ha, fmod2pi_neg_eq_add (by unfold twopi; linarith) (by linarith)]
        unfold twopi
        ring
    · -- x = 0: vertical branches
      subst hx
      rcases lt_trichotomy y 0 with hy | hy | hy
      · -- y < 0: get_theta = 3*pi/2, atan2 = -(pi/2)
        have hg : get_theta 0 y = 3 * Real.pi / 2 := by
          unfold get_theta
          rw [if_neg (by rintro ⟨h1, _⟩; linarith), if_neg (by rintro ⟨_, h2⟩; linarith),
            if_neg (by intro h1; linarith), if_pos ⟨rfl, hy⟩]
        have ha : atan2 y 0 = -(Real.pi / 2) := by
          unfold atan2
          rw [if_neg (by linarith), if_neg (by linarith), if_neg (by linarith), if_pos hy]
        rw [hg, ha, fmod2pi_neg_eq_add (by unfold twopi; linarith) (by linarith)]
        unfold twopi
        ring
      · exact absurd ⟨rfl, hy⟩ h
      · -- y > 0: both sides pi/2
        have hg : get_theta 0 y = Real.pi / 2 := by
          unfold get_theta
          rw [if_neg (by rintro ⟨h1, _⟩; linarith), if_pos ⟨rfl, hy⟩]
        have ha : atan2 y 0 = Real.pi / 2 := by
          unfold atan2
          rw [if_neg (by linarith), if_neg (by linarith), if_pos hy]
        rw [hg, ha, fmod2pi_eq_self (by linarith) (by unfold twopi; linarith)]
    · -- 0 < x
      rcases le_or_lt 0 y with hy | hy
      · -- y >= 0: both sides atan(y/x) in [0, pi/2)
        have hg : get_theta x y = Real.arctan (y / x) := by
          unfold get_theta
          rw [if_pos ⟨hx, hy⟩]
        have ha : atan2 y x = Real.arctan (y / x) := by
          unfold atan2
          rw [if_pos hx]
        have hat : 0 ≤ Real.arctan (y / x) :=
          arctan_nonneg_of_nonneg (div_nonneg hy hx.le)
        have hat2 := Real.arctan_lt_pi_div_two (y / x)
        rw [hg, ha, fmod2pi_eq_self hat (by unfold twopi; linarith)]
      · -- y < 0: get_theta = 2*pi + atan(y/x), atan2 = atan(y/x) in (-pi/2, 0)
        have hg : get_theta x y = twopi + Real.arctan (y / x) := by
          unfold get_theta
          rw [if_neg (by rintro ⟨_, h2⟩; linarith), if_neg (by rintro ⟨h1, _⟩; linarith),
            if_neg (by intro h1; linarith), if_neg (by rintro ⟨h1, _⟩; linarith),
            if_pos ⟨hx, hy⟩]
        have ha : atan2 y x = Real.arctan (y / x) := by
          unfold atan2
          rw [if_pos hx]
        have hat : Real.arctan (y / x) < 0 :=
          arctan_neg_of_neg (div_neg_of_neg_of_pos hy hx)
        have hat2 := Real.neg_pi_div_two_lt_arctan (y / x)
        rw [hg, ha, fmod2pi_neg_eq_add (by unfold twopi; linarith) hat]
        ring
  exact ⟨hmain, by rw [hmain]; exact fmod2pi_nonneg _,
    by rw [hmain]; exact fmod2pi_lt _⟩

theorem c10_get_theta_eq_atan2_witness :
    ¬((1 : ℝ) = 0 ∧ (1 : ℝ) = 0) ∧
      (get_theta 1 1 = fmod2pi (atan2 1 1) ∧
        0 ≤ get_theta 1 1 ∧ get_theta 1 1 < twopi) :=
  ⟨by norm_num, c10_get_theta_eq_atan2 1 1 (by norm_num)⟩

end SatComSim
